import Mathlib

/-!
MicStream server (`server.js`): the WebSocket session handlers

A shallow embedding of the `wss.on("connection", ...)` callback of `server.js`
(lines 93-155) and of the file-name helper `ts()` (lines 96-99).

* The closure variables `mode` and `wavWriter` of one connection are a `Session`.
* The module-level `dashClients` (a JavaScript `Set`) is a duplicate-free list
  in insertion order, which is the order `Set.prototype.forEach` visits.
* Everything a handler does to the outside world (constructing a
  `wav.FileWriter`, `write`, `end`, `c.send`) is recorded as an `Effect`, in
  program order. `console.log` calls are not recorded.
* `new Date().toISOString()` is modelled after ECMAScript (Day, YearFromTime,
  MonthFromTime, ...), on the integer number of milliseconds since the epoch.
-/

namespace MicStream

/-! ## Data model -/

/-- Connection handle: the `ws` object handed to the connection callback. -/
abbrev Conn := Nat

/-- Contents of a `Buffer`: a sequence of octets. -/
abbrev Bytes := List Nat

/-- Inbound WebSocket message: `typeof msg === "string"` or a binary frame. -/
inductive Msg where
  | text (s : String)
  | binary (buf : Bytes)
  deriving DecidableEq, Repr

/-- Values taken by the closure variable `mode` (line 104). The value
"upload" named in the source comment is never assigned. -/
inductive Mode where
  | unknown
  | dashboard
  | live
  deriving DecidableEq, Repr

/-- Values of `readyState` of a WebSocket. -/
inductive ReadyState where
  | CONNECTING
  | OPEN
  | CLOSING
  | CLOSED
  deriving DecidableEq, Repr

/-- Closure variables of one connection (lines 104-105). `created` is a ghost
counter giving object identity to writers: the writer constructed by a
connection when `created = k` is writer number `k` of that connection. -/
structure Session where
  mode : Mode
  wavWriter : Option Nat
  created : Nat
  deriving DecidableEq, Repr

/-- Argument of `c.send(...)`: a binary buffer or a text string. -/
inductive Payload where
  | bin (buf : Bytes)
  | text (s : String)
  deriving DecidableEq, Repr

/-- Externally visible actions of the handlers. In the three writer actions
`ws` is the connection whose handler performs the action and `w` the number of
the writer among those constructed by `ws`; in `send`, `c` is the recipient.
`typeError` is the exception raised by `wavWriter.write` on `null`. -/
inductive Effect where
  | newWriter (ws : Conn) (w : Nat) (name : String)
  | write (ws : Conn) (w : Nat) (buffer : Bytes)
  | endWriter (ws : Conn) (w : Nat)
  | send (c : Conn) (p : Payload)
  | typeError (ws : Conn)
  deriving DecidableEq, Repr

/-- Server state: the set `dashClients`, the closure variables of every
connection, and the transport state of every connection. -/
structure Server where
  dashClients : List Conn
  sessions : Conn → Session
  readyState : Conn → ReadyState

/-- Closure variables as initialised by the connection callback. -/
def Session.fresh : Session :=
  { mode := Mode.unknown, wavWriter := none, created := 0 }

/-- Server right after start: no dashboard client, every connection fresh. -/
def Server.init (rs : Conn → ReadyState) : Server :=
  { dashClients := [], sessions := fun _ => Session.fresh, readyState := rs }

/-! ## File names: `ts()` and ECMAScript time arithmetic -/

def msPerDay : Int := 86400000

def Day (t : Int) : Int := t / msPerDay

def TimeWithinDay (t : Int) : Int := t % msPerDay

def DaysInYear (y : Int) : Int :=
  if y % 4 ≠ 0 then 365
  else if y % 100 ≠ 0 then 366
  else if y % 400 ≠ 0 then 365
  else 366

def DayFromYear (y : Int) : Int :=
  365 * (y - 1970) + (y - 1969) / 4 - (y - 1901) / 100 + (y - 1601) / 400

def TimeFromYear (y : Int) : Int := msPerDay * DayFromYear y

/-- ECMAScript YearFromTime: the largest `y` with `TimeFromYear y ≤ t`,
computed from the mean year length of the 400-year cycle and one adjustment. -/
def YearFromTime (t : Int) : Int :=
  let y := 1970 + (400 * Day t) / 146097
  if DayFromYear (y + 1) ≤ Day t then y + 1
  else if DayFromYear y ≤ Day t then y
  else y - 1

def InLeapYear (t : Int) : Int :=
  if DaysInYear (YearFromTime t) = 366 then 1 else 0

def DayWithinYear (t : Int) : Int := Day t - DayFromYear (YearFromTime t)

def MonthFromTime (t : Int) : Int :=
  let d := DayWithinYear t
  let k := InLeapYear t
  if d < 31 then 0
  else if d < 59 + k then 1
  else if d < 90 + k then 2
  else if d < 120 + k then 3
  else if d < 151 + k then 4
  else if d < 181 + k then 5
  else if d < 212 + k then 6
  else if d < 243 + k then 7
  else if d < 273 + k then 8
  else if d < 304 + k then 9
  else if d < 334 + k then 10
  else 11

def DateFromTime (t : Int) : Int :=
  let d := DayWithinYear t
  let k := InLeapYear t
  match MonthFromTime t with
  | 0 => d + 1
  | 1 => d - 30
  | 2 => d - 58 - k
  | 3 => d - 89 - k
  | 4 => d - 119 - k
  | 5 => d - 150 - k
  | 6 => d - 180 - k
  | 7 => d - 211 - k
  | 8 => d - 242 - k
  | 9 => d - 272 - k
  | 10 => d - 303 - k
  | _ => d - 333 - k

def HourFromTime (t : Int) : Int := (t / 3600000) % 24

def MinFromTime (t : Int) : Int := (t / 60000) % 60

def SecFromTime (t : Int) : Int := (t / 1000) % 60

def msFromTime (t : Int) : Int := t % 1000

/-- Decimal digit character of `n % 10`. -/
def digitChar (n : Nat) : Char :=
  match n % 10 with
  | 0 => '0'
  | 1 => '1'
  | 2 => '2'
  | 3 => '3'
  | 4 => '4'
  | 5 => '5'
  | 6 => '6'
  | 7 => '7'
  | 8 => '8'
  | _ => '9'

/-- The last `width` decimal digits of `n`, zero padded. -/
def padDigits : Nat → Nat → List Char
  | 0, _ => []
  | w + 1, n => padDigits w (n / 10) ++ [digitChar n]

/-- Year field of `toISOString`: four digits for 0..9999, otherwise the
expanded form with a sign and six digits. -/
def isoYear (y : Int) : List Char :=
  if 0 ≤ y ∧ y ≤ 9999 then padDigits 4 y.toNat
  else if y < 0 then '-' :: padDigits 6 y.natAbs
  else '+' :: padDigits 6 y.natAbs

/-- Characters of `new Date(t).toISOString()`: `YYYY-MM-DDTHH:mm:ss.sssZ`. -/
def toISOChars (t : Int) : List Char :=
  isoYear (YearFromTime t) ++ ['-'] ++ padDigits 2 (MonthFromTime t + 1).toNat
    ++ ['-'] ++ padDigits 2 (DateFromTime t).toNat
    ++ ['T'] ++ padDigits 2 (HourFromTime t).toNat
    ++ [':'] ++ padDigits 2 (MinFromTime t).toNat
    ++ [':'] ++ padDigits 2 (SecFromTime t).toNat
    ++ ['.'] ++ padDigits 3 (msFromTime t).toNat ++ ['Z']

/-- One character under `.replace(/[:.]/g, "-")`. -/
def replaceUnsafe (c : Char) : Char :=
  if c = ':' ∨ c = '.' then '-' else c

/-- Characters of `ts()` when the clock reads `now`. -/
def tsChars (now : Int) : List Char := (toISOChars now).map replaceUnsafe

/-- Result of `ts()` (lines 97-99) when the clock reads `now`. -/
def ts (now : Int) : String := String.mk (tsChars now)

/-- Template literal of line 124 for a stream started at `now`. -/
def liveName (now : Int) : String := "livestream_" ++ ts now ++ ".wav"

/-! ## The handlers -/

/-- JavaScript `Set.prototype.add`. -/
def setAdd (l : List Conn) (c : Conn) : List Conn :=
  if c ∈ l then l else l ++ [c]

/-- JavaScript `Set.prototype.delete`. -/
def setDelete (l : List Conn) (c : Conn) : List Conn :=
  l.filter (fun x => decide (x ≠ c))

/-- Assignment to the closure variables of connection `ws`. -/
def setSession (f : Conn → Session) (ws : Conn) (v : Session) : Conn → Session :=
  fun c => if c = ws then v else f c

/-- The loop `dashClients.forEach(c => readyState === OPEN && c.send(p))`. -/
def broadcast (s : Server) (p : Payload) : List Effect :=
  (s.dashClients.filter (fun c => decide (s.readyState c = ReadyState.OPEN))).map
    (fun c => Effect.send c p)

/-- Value of `JSON.stringify({ type: "new_stream" })`. -/
def newStreamEvt : String := "\x7b\"type\":\"new_stream\"\x7d"

/-- The handler `ws.on("message", ...)` (lines 107-141) of connection `ws`,
run when the clock reads `now`. -/
def onMessage (ws : Conn) (msg : Msg) (now : Int) (s : Server) : Server × List Effect :=
  match msg with
  | Msg.text str =>
    if str = "BROWSER_CLIENT" then
      ({ s with
          sessions := setSession s.sessions ws { s.sessions ws with mode := Mode.dashboard }
          dashClients := setAdd s.dashClients ws }, [])
    else (s, [])
  | Msg.binary buffer =>
    let sess := s.sessions ws
    let started : Session × List Effect :=
      if sess.mode ≠ Mode.live then
        ({ mode := Mode.live, wavWriter := some sess.created, created := sess.created + 1 },
          [Effect.newWriter ws sess.created (liveName now)])
      else (sess, [])
    let s1 : Server := { s with sessions := setSession s.sessions ws started.1 }
    match started.1.wavWriter with
    | none => (s1, started.2 ++ [Effect.typeError ws])
    | some w => (s1, started.2 ++ [Effect.write ws w buffer] ++ broadcast s1 (Payload.bin buffer))

/-- The handler `ws.on("close", ...)` (lines 143-154) of connection `ws`. -/
def onClose (ws : Conn) (s : Server) : Server × List Effect :=
  let s1 : Server := { s with dashClients := setDelete s.dashClients ws }
  let sess := s1.sessions ws
  if sess.mode = Mode.live then
    match sess.wavWriter with
    | some w =>
      let s2 : Server :=
        { s1 with sessions := setSession s1.sessions ws { sess with wavWriter := none } }
      (s2, [Effect.endWriter ws w] ++ broadcast s2 (Payload.text newStreamEvt))
    | none => (s1, [])
  else (s1, [])

/-! ## Traces -/

/-- Events the server reacts to: a message or the close of a connection, and
a change of a transport state (made by the WebSocket library, not by a
handler). -/
inductive Event where
  | message (ws : Conn) (msg : Msg) (now : Int)
  | close (ws : Conn)
  | transport (c : Conn) (r : ReadyState)
  deriving DecidableEq, Repr

/-- One event: the new state and the effects of the handler that ran. -/
def step (s : Server) : Event → Server × List Effect
  | Event.message ws msg now => onMessage ws msg now s
  | Event.close ws => onClose ws s
  | Event.transport c r =>
    ({ s with readyState := fun x => if x = c then r else s.readyState x }, [])

/-- State after a trace of events. -/
def runState : Server → List Event → Server
  | s, [] => s
  | s, e :: es => runState (step s e).1 es

/-- Effects of a trace of events, in order. -/
def runEffects : Server → List Event → List Effect
  | _, [] => []
  | s, e :: es => (step s e).2 ++ runEffects (step s e).1 es

/-- Whether an event is a handler invocation of connection `c`. -/
def Event.isOn (c : Conn) : Event → Bool
  | Event.message ws _ _ => decide (ws = c)
  | Event.close ws => decide (ws = c)
  | Event.transport _ _ => false

/-- Whether an effect is a writer operation of connection `c`. -/
def Effect.isWriterOp (c : Conn) : Effect → Bool
  | Effect.newWriter ws _ _ => decide (ws = c)
  | Effect.write ws _ _ => decide (ws = c)
  | Effect.endWriter ws _ => decide (ws = c)
  | _ => false

/-- Writer operations performed by the handlers of connection `c`. -/
def writerOps (c : Conn) (effs : List Effect) : List Effect :=
  effs.filter (Effect.isWriterOp c)

/-- Effects of the handlers of connection `c` alone along a trace. -/
def runEffectsOn (c : Conn) : Server → List Event → List Effect
  | _, [] => []
  | s, e :: es =>
    (if e.isOn c then (step s e).2 else []) ++ runEffectsOn c (step s e).1 es

/-- Bytes handed to writer number `w` of connection `c`, in order. -/
def bytesWritten (c : Conn) (w : Nat) : List Effect → Bytes
  | [] => []
  | Effect.write ws w2 buf :: es =>
    (if ws = c ∧ w2 = w then buf else []) ++ bytesWritten c w es
  | _ :: es => bytesWritten c w es

/-- Event of a binary frame `p.1` arriving on `c` when the clock reads `p.2`. -/
def frameEvent (c : Conn) (p : Bytes × Int) : Event :=
  Event.message c (Msg.binary p.1) p.2

/-- Whether an effect constructs a writer. -/
def Effect.isNewWriter : Effect → Bool
  | Effect.newWriter _ _ _ => true
  | _ => false

/-- Whether an effect finalizes a writer. -/
def Effect.isEndWriter : Effect → Bool
  | Effect.endWriter _ _ => true
  | _ => false

/-- Whether an event is a binary frame arriving on connection `c`. -/
def Event.isFrameOn (c : Conn) : Event → Bool
  | Event.message ws (Msg.binary _) _ => decide (ws = c)
  | _ => false

/-- Whether an event is a message (text or binary) arriving on connection `c`. -/
def Event.isMessageOn (c : Conn) : Event → Bool
  | Event.message ws _ _ => decide (ws = c)
  | _ => false

/-- Traces the WebSocket library can produce: after the close event of a
connection no message event of that connection follows. -/
def closeIsFinal : List Event → Bool
  | [] => true
  | Event.close c :: es => es.all (fun e => !(e.isMessageOn c)) && closeIsFinal es
  | _ :: es => closeIsFinal es

/-- Binary payloads sent to connection `o`, in the order of the sends. -/
def binSentTo (o : Conn) : List Effect → List Bytes
  | [] => []
  | Effect.send c (Payload.bin buf) :: es => (if c = o then [buf] else []) ++ binSentTo o es
  | _ :: es => binSentTo o es

/-- The frame of event `e`, if `e` is a binary frame handled in state `s` while
`o` is a member of `dashClients` and the transport of `o` is OPEN. -/
def frameSeenBy (o : Conn) (s : Server) : Event → List Bytes
  | Event.message _ (Msg.binary buf) _ =>
    if o ∈ s.dashClients ∧ s.readyState o = ReadyState.OPEN then [buf] else []
  | _ => []

/-- The binary frames of a trace, in order of arrival, that were handled while
`o` was a member of `dashClients` and the transport of `o` was OPEN. -/
def framesWhileObserving (o : Conn) : Server → List Event → List Bytes
  | _, [] => []
  | s, e :: es => frameSeenBy o s e ++ framesWhileObserving o (step s e).1 es

/-! ## Handler equations and projection to one connection -/

theorem step_sessions_other (s : Server) (e : Event) (c : Conn) (h : e.isOn c = false) :
    (step s e).1.sessions c = s.sessions c := by
  cases e with
  | message ws msg now =>
    have hne : c ≠ ws := by
      intro hc; subst hc; simp [Event.isOn] at h
    cases msg with
    | text str =>
      by_cases hs : str = "BROWSER_CLIENT" <;> simp [step, onMessage, hs, setSession, hne]
    | binary buf =>
      simp only [step, onMessage]
      split <;> simp [setSession, hne]
  | close ws =>
    have hne : c ≠ ws := by
      intro hc; subst hc; simp [Event.isOn] at h
    simp only [step, onClose]
    split
    · split <;> simp [setSession, hne]
    · rfl
  | transport c2 r => rfl

theorem step_writerOps_other (s : Server) (e : Event) (c : Conn) (h : e.isOn c = false) :
    writerOps c (step s e).2 = [] := by
  cases e with
  | message ws msg now =>
    have hne : ¬ ws = c := by
      intro hc; subst hc; simp [Event.isOn] at h
    cases msg with
    | text str =>
      by_cases hs : str = "BROWSER_CLIENT" <;> simp [step, onMessage, hs, writerOps]
    | binary buf =>
      simp only [step, onMessage]
      split <;> split <;>
        simp [writerOps, List.filter_append, Effect.isWriterOp, hne, broadcast, List.filter_map,
          List.filter_eq_nil_iff]
  | close ws =>
    have hne : ¬ ws = c := by
      intro hc; subst hc; simp [Event.isOn] at h
    simp only [step, onClose]
    split
    · split <;> simp [writerOps, Effect.isWriterOp, hne, broadcast, List.filter_map,
          List.filter_eq_nil_iff]
    · rfl
  | transport c2 r => rfl

theorem writerOps_append (c : Conn) (a b : List Effect) :
    writerOps c (a ++ b) = writerOps c a ++ writerOps c b := by
  simp [writerOps]

theorem writerOps_broadcast (c : Conn) (s : Server) (p : Payload) :
    writerOps c (broadcast s p) = [] := by
  simp [writerOps, broadcast, List.filter_map, List.filter_eq_nil_iff, Effect.isWriterOp]

theorem onMessage_dashClients_binary (ws : Conn) (buf : Bytes) (now : Int) (s : Server) :
    (onMessage ws (Msg.binary buf) now s).1.dashClients = s.dashClients ∧
    (onMessage ws (Msg.binary buf) now s).1.readyState = s.readyState := by
  simp only [onMessage]
  split <;> simp

theorem onMessage_binary_start (ws : Conn) (buf : Bytes) (now : Int) (s : Server)
    (h : (s.sessions ws).mode ≠ Mode.live) :
    (onMessage ws (Msg.binary buf) now s).2 =
      [Effect.newWriter ws (s.sessions ws).created (liveName now),
        Effect.write ws (s.sessions ws).created buf] ++ broadcast s (Payload.bin buf) ∧
    (onMessage ws (Msg.binary buf) now s).1.sessions ws =
      { mode := Mode.live, wavWriter := some (s.sessions ws).created,
        created := (s.sessions ws).created + 1 } := by
  simp [onMessage, h, setSession, broadcast]

theorem onMessage_binary_live (ws : Conn) (buf : Bytes) (now : Int) (s : Server) (w : Nat)
    (h : (s.sessions ws).mode = Mode.live) (hw : (s.sessions ws).wavWriter = some w) :
    (onMessage ws (Msg.binary buf) now s).2 =
      [Effect.write ws w buf] ++ broadcast s (Payload.bin buf) ∧
    (onMessage ws (Msg.binary buf) now s).1.sessions ws = s.sessions ws := by
  simp [onMessage, h, hw, setSession, broadcast]

theorem onMessage_binary_null (ws : Conn) (buf : Bytes) (now : Int) (s : Server)
    (h : (s.sessions ws).mode = Mode.live) (hw : (s.sessions ws).wavWriter = none) :
    (onMessage ws (Msg.binary buf) now s).2 = [Effect.typeError ws] ∧
    (onMessage ws (Msg.binary buf) now s).1.sessions ws = s.sessions ws := by
  simp [onMessage, h, hw, setSession]

theorem onMessage_text (ws : Conn) (str : String) (now : Int) (s : Server) :
    (onMessage ws (Msg.text str) now s).2 = [] ∧
    (onMessage ws (Msg.text str) now s).1.readyState = s.readyState ∧
    (onMessage ws (Msg.text str) now s).1.sessions ws =
      (if str = "BROWSER_CLIENT" then { s.sessions ws with mode := Mode.dashboard }
        else s.sessions ws) ∧
    (onMessage ws (Msg.text str) now s).1.dashClients =
      (if str = "BROWSER_CLIENT" then setAdd s.dashClients ws else s.dashClients) := by
  by_cases hs : str = "BROWSER_CLIENT" <;> simp [onMessage, hs, setSession]

theorem onClose_dashClients (ws : Conn) (s : Server) :
    (onClose ws s).1.dashClients = setDelete s.dashClients ws ∧
    (onClose ws s).1.readyState = s.readyState := by
  simp only [onClose]
  split
  · split <;> simp
  · simp

theorem onClose_finalize (ws : Conn) (s : Server) (w : Nat)
    (h : (s.sessions ws).mode = Mode.live) (hw : (s.sessions ws).wavWriter = some w) :
    (onClose ws s).2 = Effect.endWriter ws w ::
      ((setDelete s.dashClients ws).filter
        (fun c => decide (s.readyState c = ReadyState.OPEN))).map
        (fun c => Effect.send c (Payload.text newStreamEvt)) ∧
    (onClose ws s).1.sessions ws = { s.sessions ws with wavWriter := none } := by
  simp [onClose, h, hw, setSession, broadcast]

theorem onClose_idle (ws : Conn) (s : Server)
    (h : (s.sessions ws).mode ≠ Mode.live ∨ (s.sessions ws).wavWriter = none) :
    (onClose ws s).2 = [] ∧ (onClose ws s).1.sessions ws = s.sessions ws := by
  rcases h with h | h
  · simp [onClose, h]
  · by_cases hm : (s.sessions ws).mode = Mode.live <;> simp [onClose, h, hm]

theorem step_on_congr (s1 s2 : Server) (e : Event) (c : Conn) (h : e.isOn c = true)
    (hs : s1.sessions c = s2.sessions c) :
    (step s1 e).1.sessions c = (step s2 e).1.sessions c ∧
    writerOps c (step s1 e).2 = writerOps c (step s2 e).2 := by
  cases e with
  | message ws msg now =>
    have hc : ws = c := by simpa [Event.isOn] using h
    subst hc
    cases msg with
    | text str =>
      simp only [step]
      rw [(onMessage_text ws str now s1).1, (onMessage_text ws str now s2).1,
        (onMessage_text ws str now s1).2.2.1, (onMessage_text ws str now s2).2.2.1, hs]
      simp
    | binary buf =>
      simp only [step]
      by_cases hm : (s2.sessions ws).mode = Mode.live
      · cases hw : (s2.sessions ws).wavWriter with
        | none =>
          rw [(onMessage_binary_null ws buf now s1 (hs ▸ hm) (hs ▸ hw)).1,
            (onMessage_binary_null ws buf now s1 (hs ▸ hm) (hs ▸ hw)).2,
            (onMessage_binary_null ws buf now s2 hm hw).1,
            (onMessage_binary_null ws buf now s2 hm hw).2, hs]
          simp
        | some w =>
          rw [(onMessage_binary_live ws buf now s1 w (hs ▸ hm) (hs ▸ hw)).1,
            (onMessage_binary_live ws buf now s1 w (hs ▸ hm) (hs ▸ hw)).2,
            (onMessage_binary_live ws buf now s2 w hm hw).1,
            (onMessage_binary_live ws buf now s2 w hm hw).2, hs]
          rw [writerOps_append, writerOps_append, writerOps_broadcast, writerOps_broadcast]
          exact ⟨rfl, rfl⟩
      · rw [(onMessage_binary_start ws buf now s1 (hs ▸ hm)).1,
          (onMessage_binary_start ws buf now s1 (hs ▸ hm)).2,
          (onMessage_binary_start ws buf now s2 hm).1,
          (onMessage_binary_start ws buf now s2 hm).2, hs]
        rw [writerOps_append, writerOps_append, writerOps_broadcast, writerOps_broadcast]
        exact ⟨rfl, rfl⟩
  | close ws =>
    have hc : ws = c := by simpa [Event.isOn] using h
    subst hc
    simp only [step]
    by_cases hm : (s2.sessions ws).mode = Mode.live
    · cases hw : (s2.sessions ws).wavWriter with
      | none =>
        rw [(onClose_idle ws s1 (Or.inr (hs ▸ hw))).1, (onClose_idle ws s1 (Or.inr (hs ▸ hw))).2,
          (onClose_idle ws s2 (Or.inr hw)).1, (onClose_idle ws s2 (Or.inr hw)).2, hs]
        simp
      | some w =>
        rw [(onClose_finalize ws s1 w (hs ▸ hm) (hs ▸ hw)).1,
          (onClose_finalize ws s1 w (hs ▸ hm) (hs ▸ hw)).2,
          (onClose_finalize ws s2 w hm hw).1, (onClose_finalize ws s2 w hm hw).2, hs]
        simp [writerOps, List.filter_map, List.filter_eq_nil_iff, Effect.isWriterOp]
    · rw [(onClose_idle ws s1 (Or.inl (hs ▸ hm))).1, (onClose_idle ws s1 (Or.inl (hs ▸ hm))).2,
        (onClose_idle ws s2 (Or.inl hm)).1, (onClose_idle ws s2 (Or.inl hm)).2, hs]
      simp
  | transport c2 r => simp [Event.isOn] at h

theorem writerOps_project (c : Conn) (tr : List Event) :
    ∀ s1 s2 : Server, s1.sessions c = s2.sessions c →
      writerOps c (runEffects s1 tr) = writerOps c (runEffects s2 (tr.filter (Event.isOn c))) ∧
      (runState s1 tr).sessions c = (runState s2 (tr.filter (Event.isOn c))).sessions c := by
  induction tr with
  | nil => intro s1 s2 hs; simp [runEffects, runState, hs]
  | cons e es ih =>
    intro s1 s2 hs
    by_cases he : e.isOn c = true
    · have h1 := step_on_congr s1 s2 e c he hs
      have h2 := ih (step s1 e).1 (step s2 e).1 h1.1
      simp [List.filter_cons, he, runEffects, runState, writerOps_append, h1.2, h2.1, h2.2]
    · have he2 : e.isOn c = false := by simpa using he
      have h1 := step_sessions_other s1 e c he2
      have h2 := ih (step s1 e).1 s2 (h1.trans hs)
      simp [List.filter_cons, he2, runEffects, runState, writerOps_append,
        step_writerOps_other s1 e c he2, h2.1, h2.2]

/-! ## Frames of one producer -/

theorem bytesWritten_append (c : Conn) (w : Nat) (a b : List Effect) :
    bytesWritten c w (a ++ b) = bytesWritten c w a ++ bytesWritten c w b := by
  induction a with
  | nil => rfl
  | cons e es ih => cases e <;> simp [bytesWritten, ih]

theorem bytesWritten_writes (c : Conn) (w : Nat) (fs : List (Bytes × Int)) :
    bytesWritten c w (fs.map (fun p => Effect.write c w p.1)) = (fs.map Prod.fst).flatten := by
  induction fs with
  | nil => rfl
  | cons f fs ih => simp [bytesWritten, ih]

theorem bytesWritten_writerOps (c : Conn) (w : Nat) (effs : List Effect) :
    bytesWritten c w (writerOps c effs) = bytesWritten c w effs := by
  induction effs with
  | nil => rfl
  | cons e es ih =>
    cases e with
    | write ws w2 buf =>
      by_cases h : ws = c
      · simp [writerOps, Effect.isWriterOp, h, bytesWritten] at ih ⊢
        rw [ih]
      · simp [writerOps, Effect.isWriterOp, h, bytesWritten] at ih ⊢
        exact ih
    | newWriter ws w2 name =>
      by_cases h : ws = c <;> simp [writerOps, Effect.isWriterOp, h, bytesWritten] at ih ⊢ <;>
        exact ih
    | endWriter ws w2 =>
      by_cases h : ws = c <;> simp [writerOps, Effect.isWriterOp, h, bytesWritten] at ih ⊢ <;>
        exact ih
    | send c2 p => simpa [writerOps, Effect.isWriterOp, bytesWritten] using ih
    | typeError ws => simpa [writerOps, Effect.isWriterOp, bytesWritten] using ih

theorem runEffects_cons (s : Server) (e : Event) (es : List Event) :
    runEffects s (e :: es) = (step s e).2 ++ runEffects (step s e).1 es := rfl

theorem runState_cons (s : Server) (e : Event) (es : List Event) :
    runState s (e :: es) = runState (step s e).1 es := rfl

theorem live_frames_then_close (c : Conn) (w : Nat) (fs : List (Bytes × Int)) :
    ∀ s : Server, (s.sessions c).mode = Mode.live → (s.sessions c).wavWriter = some w →
      writerOps c (runEffects s (fs.map (frameEvent c) ++ [Event.close c])) =
        fs.map (fun p => Effect.write c w p.1) ++ [Effect.endWriter c w] := by
  induction fs with
  | nil =>
    intro s hm hw
    have h := (onClose_finalize c s w hm hw).1
    simp only [List.map_nil, List.nil_append, runEffects, step, h, List.append_nil]
    simp [writerOps, Effect.isWriterOp, List.filter_map, List.filter_eq_nil_iff]
  | cons f fs ih =>
    intro s hm hw
    have h := onMessage_binary_live c f.1 f.2 s w hm hw
    have hnext := ih (onMessage c (Msg.binary f.1) f.2 s).1 (by rw [h.2]; exact hm)
      (by rw [h.2]; exact hw)
    have hstep : step s (frameEvent c f) = onMessage c (Msg.binary f.1) f.2 s := rfl
    rw [List.map_cons, List.cons_append, runEffects_cons, writerOps_append, hstep, h.1, hnext,
      writerOps_append, writerOps_broadcast]
    simp [writerOps, Effect.isWriterOp]

/-- C1: on a fresh connection `c`, a non-empty sequence of binary frames
`f, fs` (each with its arrival time) followed by close, with the events of
other connections interleaved in any way, makes the handlers of `c` construct
exactly one writer, write the frames to it in order and then end it; the
bytes handed to that writer are the concatenation of the frames and their
number is the sum of the frame lengths. -/
theorem frames_then_close_writer_ops (s : Server) (c : Conn) (tr : List Event)
    (f : Bytes × Int) (fs : List (Bytes × Int))
    (hfresh : s.sessions c = Session.fresh)
    (htr : tr.filter (Event.isOn c) = (f :: fs).map (frameEvent c) ++ [Event.close c]) :
    writerOps c (runEffects s tr) =
      Effect.newWriter c 0 (liveName f.2) :: (f :: fs).map (fun p => Effect.write c 0 p.1)
        ++ [Effect.endWriter c 0] ∧
    bytesWritten c 0 (runEffects s tr) = ((f :: fs).map Prod.fst).flatten ∧
    (bytesWritten c 0 (runEffects s tr)).length = ((f :: fs).map (fun p => p.1.length)).sum := by
  have hops : writerOps c (runEffects s tr) =
      Effect.newWriter c 0 (liveName f.2) :: (f :: fs).map (fun p => Effect.write c 0 p.1)
        ++ [Effect.endWriter c 0] := by
    rw [(writerOps_project c tr s s rfl).1, htr]
    have hm : (s.sessions c).mode ≠ Mode.live := by rw [hfresh]; decide
    have h := onMessage_binary_start c f.1 f.2 s hm
    have hnext := live_frames_then_close c 0 fs (onMessage c (Msg.binary f.1) f.2 s).1
      (by rw [h.2]) (by rw [h.2, hfresh]; rfl)
    have hstep : step s (frameEvent c f) = onMessage c (Msg.binary f.1) f.2 s := rfl
    rw [List.map_cons, List.cons_append, runEffects_cons, writerOps_append, hstep, h.1, hnext,
      writerOps_append, writerOps_broadcast, hfresh]
    simp [writerOps, Effect.isWriterOp, Session.fresh]
  have hbytes : bytesWritten c 0 (runEffects s tr) = ((f :: fs).map Prod.fst).flatten := by
    rw [← bytesWritten_writerOps, hops]
    have h2 := bytesWritten_writes c 0 (f :: fs)
    have h3 := bytesWritten_append c 0
      (Effect.newWriter c 0 (liveName f.2) :: (f :: fs).map (fun p => Effect.write c 0 p.1))
      [Effect.endWriter c 0]
    rw [h3]
    show bytesWritten c 0 ((f :: fs).map (fun p => Effect.write c 0 p.1)) ++ [] = _
    rw [List.append_nil]
    exact h2
  refine ⟨hops, hbytes, ?_⟩
  rw [hbytes, List.length_flatten, List.map_map]
  rfl

/-- Witness for C1: three frames of 3200 bytes followed by close hand 9600
bytes to the single writer. -/
theorem frames_then_close_writer_ops_witness :
    (Server.init (fun _ => ReadyState.OPEN)).sessions 1 = Session.fresh ∧
    [frameEvent 1 (List.replicate 3200 0, 0), frameEvent 1 (List.replicate 3200 1, 100),
      frameEvent 1 (List.replicate 3200 2, 200), Event.close 1].filter (Event.isOn 1) =
      [(List.replicate 3200 0, 0), (List.replicate 3200 1, 100),
        (List.replicate 3200 2, 200)].map (frameEvent 1) ++ [Event.close 1] ∧
    (bytesWritten 1 0 (runEffects (Server.init (fun _ => ReadyState.OPEN))
      [frameEvent 1 (List.replicate 3200 0, 0), frameEvent 1 (List.replicate 3200 1, 100),
        frameEvent 1 (List.replicate 3200 2, 200), Event.close 1])).length = 9600 := by
  have h := (frames_then_close_writer_ops (Server.init (fun _ => ReadyState.OPEN)) 1
    [frameEvent 1 (List.replicate 3200 0, 0), frameEvent 1 (List.replicate 3200 1, 100),
      frameEvent 1 (List.replicate 3200 2, 200), Event.close 1]
    (List.replicate 3200 0, 0) [(List.replicate 3200 1, 100), (List.replicate 3200 2, 200)]
    rfl rfl).2.2
  refine ⟨rfl, rfl, ?_⟩
  rw [h]
  simp only [List.map_cons, List.map_nil, List.sum_cons, List.sum_nil, List.length_replicate]
  rfl

/-! ## The write path and the observer set -/

/-- C8: the writer operations of connection `c` (construct, write, end) are
determined by the closure variables of `c` and by the events of `c` alone: two
runs that agree on them perform the same writer operations, whatever the
observer sets, the transport states and the events of other connections. -/
theorem writer_ops_independent_of_observers (s1 s2 : Server) (c : Conn)
    (tr1 tr2 : List Event) (hs : s1.sessions c = s2.sessions c)
    (htr : tr1.filter (Event.isOn c) = tr2.filter (Event.isOn c)) :
    writerOps c (runEffects s1 tr1) = writerOps c (runEffects s2 tr2) := by
  rw [(writerOps_project c tr1 s1 s2 hs).1, (writerOps_project c tr2 s2 s2 rfl).1, htr]

/-- Witness for C8: a run with no observer against a run with two observers,
one of them registering in between, both not OPEN. -/
theorem writer_ops_independent_of_observers_witness :
    (Server.init (fun _ => ReadyState.OPEN)).sessions 1 =
      ({ dashClients := [5, 6], sessions := fun _ => Session.fresh,
         readyState := fun _ => ReadyState.CLOSING } : Server).sessions 1 ∧
    [Event.message 1 (Msg.binary [1, 2]) 0, Event.message 1 (Msg.binary [3]) 9,
      Event.close 1].filter (Event.isOn 1) =
    [Event.message 1 (Msg.binary [1, 2]) 0, Event.message 7 (Msg.text "BROWSER_CLIENT") 4,
      Event.transport 7 ReadyState.OPEN, Event.message 1 (Msg.binary [3]) 9,
      Event.close 1].filter (Event.isOn 1) ∧
    writerOps 1 (runEffects (Server.init (fun _ => ReadyState.OPEN))
      [Event.message 1 (Msg.binary [1, 2]) 0, Event.message 1 (Msg.binary [3]) 9,
        Event.close 1]) =
    writerOps 1 (runEffects
      { dashClients := [5, 6], sessions := fun _ => Session.fresh,
        readyState := fun _ => ReadyState.CLOSING }
      [Event.message 1 (Msg.binary [1, 2]) 0, Event.message 7 (Msg.text "BROWSER_CLIENT") 4,
        Event.transport 7 ReadyState.OPEN, Event.message 1 (Msg.binary [3]) 9,
        Event.close 1]) :=
  ⟨rfl, rfl, writer_ops_independent_of_observers _ _ 1 _ _ rfl rfl⟩

/-! ## Connections without binary frames -/

theorem idle_connection_silent (c : Conn) (tr : List Event) :
    ∀ s : Server, (s.sessions c).mode ≠ Mode.live → (∀ e ∈ tr, e.isFrameOn c = false) →
      runEffectsOn c s tr = [] ∧ writerOps c (runEffects s tr) = [] ∧
      ((runState s tr).sessions c).mode ≠ Mode.live ∧
      ((runState s tr).sessions c).wavWriter = (s.sessions c).wavWriter := by
  induction tr with
  | nil => intro s hm _; exact ⟨rfl, rfl, hm, rfl⟩
  | cons e es ih =>
    intro s hm hnb
    have hes : ∀ x ∈ es, x.isFrameOn c = false := fun x hx => hnb x (List.mem_cons_of_mem _ hx)
    have he := hnb e (List.mem_cons_self _ _)
    by_cases hon : e.isOn c = true
    · have hstep : (step s e).2 = [] ∧ ((step s e).1.sessions c).mode ≠ Mode.live ∧
          ((step s e).1.sessions c).wavWriter = (s.sessions c).wavWriter := by
        cases e with
        | message ws msg now =>
          have hc : ws = c := by simpa [Event.isOn] using hon
          subst hc
          cases msg with
          | text str =>
            have h := onMessage_text ws str now s
            simp only [step]
            rw [h.1, h.2.2.1]
            by_cases hs : str = "BROWSER_CLIENT" <;> simp [hs, hm]
          | binary buf => simp [Event.isFrameOn] at he
        | close ws =>
          have hc : ws = c := by simpa [Event.isOn] using hon
          subst hc
          have h := onClose_idle ws s (Or.inl hm)
          simp only [step]
          rw [h.1, h.2]
          exact ⟨rfl, hm, rfl⟩
        | transport c2 r => simp [Event.isOn] at hon
      have hm1 := hstep.2.1
      have hrec := ih (step s e).1 hm1 hes
      refine ⟨?_, ?_, hrec.2.2.1, ?_⟩
      · simp [runEffectsOn, hon, hstep.1, hrec.1]
      · rw [runEffects_cons, writerOps_append, hstep.1, hrec.2.1]
        rfl
      · rw [runState_cons, hrec.2.2.2, hstep.2.2]
    · have hoff : e.isOn c = false := by simpa using hon
      have hsame := step_sessions_other s e c hoff
      have hm1 : ((step s e).1.sessions c).mode ≠ Mode.live := by rw [hsame]; exact hm
      have hrec := ih (step s e).1 hm1 hes
      refine ⟨?_, ?_, hrec.2.2.1, ?_⟩
      · simp [runEffectsOn, hoff, hrec.1]
      · rw [runEffects_cons, writerOps_append, step_writerOps_other s e c hoff, hrec.2.1]
        rfl
      · rw [runState_cons, hrec.2.2.2, hsame]

/-- C5: a fresh connection `c` that receives no binary frame (any text
messages, any number of close events, other connections interleaved in any
way) has handlers without any effect: no writer is constructed, nothing is
ended and nothing, the "new_stream" notification included, is sent; its
`wavWriter` is still `null` at the end. -/
theorem no_frames_no_effects (s : Server) (c : Conn) (tr : List Event)
    (hfresh : s.sessions c = Session.fresh)
    (hnb : ∀ e ∈ tr, e.isFrameOn c = false) :
    runEffectsOn c s tr = [] ∧ writerOps c (runEffects s tr) = [] ∧
    ((runState s tr).sessions c).wavWriter = none := by
  have hm : (s.sessions c).mode ≠ Mode.live := by rw [hfresh]; decide
  have h := idle_connection_silent c tr s hm hnb
  refine ⟨h.1, h.2.1, ?_⟩
  rw [h.2.2.2, hfresh]
  rfl

/-- Witness for C5: connection 1 sends two text messages and closes while
connection 2 streams to the registered connection 1. -/
theorem no_frames_no_effects_witness :
    (Server.init (fun _ => ReadyState.OPEN)).sessions 1 = Session.fresh ∧
    (∀ e ∈ [Event.message 1 (Msg.text "BROWSER_CLIENT") 0,
        Event.message 2 (Msg.binary [9]) 1, Event.message 1 (Msg.text "hello") 2,
        Event.close 1], e.isFrameOn 1 = false) ∧
    runEffectsOn 1 (Server.init (fun _ => ReadyState.OPEN))
      [Event.message 1 (Msg.text "BROWSER_CLIENT") 0,
        Event.message 2 (Msg.binary [9]) 1, Event.message 1 (Msg.text "hello") 2,
        Event.close 1] = [] :=
  ⟨rfl, by decide, (no_frames_no_effects _ 1 _ rfl (by decide)).1⟩

/-! ## Re-registration of a live connection, frames of an observer -/

/-- C2 (evaluation at the failing input): a connection that sends a frame,
then "BROWSER_CLIENT", then another frame constructs two writers; line 111
resets `mode` without looking at `wavWriter`, so the test of line 121 succeeds
a second time although this is not the first chunk. -/
theorem second_writer_after_control_message :
    (runEffects (Server.init (fun _ => ReadyState.CLOSED))
      [Event.message 1 (Msg.binary [1, 2]) 0, Event.message 1 (Msg.text "BROWSER_CLIENT") 5,
        Event.message 1 (Msg.binary [3]) 1000]).filter Effect.isNewWriter =
      [Effect.newWriter 1 0 "livestream_1970-01-01T00-00-00-000Z.wav",
        Effect.newWriter 1 1 "livestream_1970-01-01T00-00-01-000Z.wav"] := by
  decide

/-- C4 (evaluation at the failing input): a connection that sends a frame,
then "BROWSER_CLIENT", and then closes leaves its writer unfinalized: the
close handler sees `mode === "dashboard"` and performs no `end()`. -/
theorem writer_left_open_after_control_message :
    runEffects (Server.init (fun _ => ReadyState.CLOSED))
      [Event.message 1 (Msg.binary [1, 2]) 0, Event.message 1 (Msg.text "BROWSER_CLIENT") 5,
        Event.close 1] =
      [Effect.newWriter 1 0 "livestream_1970-01-01T00-00-00-000Z.wav",
        Effect.write 1 0 [1, 2]] ∧
    ((runState (Server.init (fun _ => ReadyState.CLOSED))
      [Event.message 1 (Msg.binary [1, 2]) 0, Event.message 1 (Msg.text "BROWSER_CLIENT") 5,
        Event.close 1]).sessions 1).wavWriter = some 0 := by
  decide

/-- C3 (counterexample): connection 1 registers as an observer and then sends
one binary frame. The frame is not ignored: the mode becomes `live`, a writer
is constructed, the frame is written to it and sent to the observers, here
connection 1 itself. -/
theorem observer_frame_not_ignored :
    ((runState (Server.init (fun _ => ReadyState.OPEN))
      [Event.message 1 (Msg.text "BROWSER_CLIENT") 0,
        Event.message 1 (Msg.binary [7]) 1000]).sessions 1).mode ≠ Mode.dashboard ∧
    ((runState (Server.init (fun _ => ReadyState.OPEN))
      [Event.message 1 (Msg.text "BROWSER_CLIENT") 0,
        Event.message 1 (Msg.binary [7]) 1000]).sessions 1).mode = Mode.live ∧
    runEffects (Server.init (fun _ => ReadyState.OPEN))
      [Event.message 1 (Msg.text "BROWSER_CLIENT") 0, Event.message 1 (Msg.binary [7]) 1000] =
      [Effect.newWriter 1 0 "livestream_1970-01-01T00-00-01-000Z.wav", Effect.write 1 0 [7],
        Effect.send 1 (Payload.bin [7])] := by
  decide

theorem mem_setDelete (l : List Conn) (c x : Conn) : x ∈ setDelete l c ↔ x ∈ l ∧ x ≠ c := by
  simp [setDelete]

theorem registered_stays_silent (c : Conn) (tr : List Event) :
    ∀ s : Server, (s.sessions c).mode = Mode.dashboard →
      (∀ e ∈ tr, e.isFrameOn c = false) →
      ((runState s tr).sessions c).mode = Mode.dashboard ∧
      ((runState s tr).sessions c).wavWriter = (s.sessions c).wavWriter ∧
      runEffectsOn c s tr = [] := by
  induction tr with
  | nil => intro s hm _; exact ⟨hm, rfl, rfl⟩
  | cons e es ih =>
    intro s hm hnb
    have hes : ∀ x ∈ es, x.isFrameOn c = false := fun x hx => hnb x (List.mem_cons_of_mem _ hx)
    have he := hnb e (List.mem_cons_self _ _)
    have hne : (s.sessions c).mode ≠ Mode.live := by rw [hm]; decide
    have hstep : ((step s e).1.sessions c).mode = Mode.dashboard ∧
        ((step s e).1.sessions c).wavWriter = (s.sessions c).wavWriter ∧
        (if e.isOn c then (step s e).2 else []) = [] := by
      by_cases hon : e.isOn c = true
      · cases e with
        | message ws msg now =>
          have hws : ws = c := by simpa [Event.isOn] using hon
          subst hws
          cases msg with
          | text str =>
            have h := onMessage_text ws str now s
            simp only [step]
            rw [h.1, h.2.2.1]
            by_cases hs : str = "BROWSER_CLIENT" <;> simp [hs, hm]
          | binary buf => simp [Event.isFrameOn] at he
        | close ws =>
          have hws : ws = c := by simpa [Event.isOn] using hon
          subst hws
          have h := onClose_idle ws s (Or.inl hne)
          simp only [step]
          rw [h.1, h.2]
          simp [hm]
        | transport c2 r => simp [Event.isOn] at hon
      · have hoff : e.isOn c = false := by simpa using hon
        rw [step_sessions_other s e c hoff]
        simp [hoff, hm]
    have hrec := ih (step s e).1 hstep.1 hes
    refine ⟨hrec.1, ?_, ?_⟩
    · rw [runState_cons, hrec.2.1, hstep.2.1]
    · show (if e.isOn c then (step s e).2 else []) ++ runEffectsOn c (step s e).1 es = []
      rw [hstep.2.2, hrec.2.2]
      rfl

/-- C3 (amended): when "BROWSER_CLIENT" registers a connection `c` that holds
no writer, then as long as `c` receives no binary frame its mode stays
`dashboard`, its `wavWriter` stays `null` and the handlers of `c` have no
effect at all (no writer, no write, no send). A binary frame arriving then is
not ignored: the mode becomes `live`, the writer of `c` is constructed, the
frame is written to it and broadcast to the observers with an OPEN
transport. -/
theorem observer_until_first_frame (s : Server) (c : Conn) (now : Int) (tr : List Event)
    (hw : (s.sessions c).wavWriter = none)
    (hnb : ∀ e ∈ tr, e.isFrameOn c = false) :
    ((runState (onMessage c (Msg.text "BROWSER_CLIENT") now s).1 tr).sessions c).mode
      = Mode.dashboard ∧
    ((runState (onMessage c (Msg.text "BROWSER_CLIENT") now s).1 tr).sessions c).wavWriter
      = none ∧
    runEffectsOn c (onMessage c (Msg.text "BROWSER_CLIENT") now s).1 tr = [] ∧
    ∀ (buf : Bytes) (t : Int),
      (onMessage c (Msg.binary buf) t
        (runState (onMessage c (Msg.text "BROWSER_CLIENT") now s).1 tr)).2 =
        [Effect.newWriter c
            ((runState (onMessage c (Msg.text "BROWSER_CLIENT") now s).1 tr).sessions c).created
            (liveName t),
          Effect.write c
            ((runState (onMessage c (Msg.text "BROWSER_CLIENT") now s).1 tr).sessions c).created
            buf] ++
          broadcast (runState (onMessage c (Msg.text "BROWSER_CLIENT") now s).1 tr)
            (Payload.bin buf) ∧
      ((onMessage c (Msg.binary buf) t
        (runState (onMessage c (Msg.text "BROWSER_CLIENT") now s).1 tr)).1.sessions c).mode
        = Mode.live := by
  have hreg := onMessage_text c "BROWSER_CLIENT" now s
  have hm0 : ((onMessage c (Msg.text "BROWSER_CLIENT") now s).1.sessions c).mode
      = Mode.dashboard := by rw [hreg.2.2.1]; simp
  have hw0 : ((onMessage c (Msg.text "BROWSER_CLIENT") now s).1.sessions c).wavWriter
      = none := by rw [hreg.2.2.1]; simpa using hw
  have h := registered_stays_silent c tr _ hm0 hnb
  refine ⟨h.1, by rw [h.2.1, hw0], h.2.2, ?_⟩
  intro buf t
  have hne : ((runState (onMessage c (Msg.text "BROWSER_CLIENT") now s).1 tr).sessions c).mode
      ≠ Mode.live := by rw [h.1]; decide
  have hb := onMessage_binary_start c buf t _ hne
  exact ⟨hb.1, by rw [hb.2]⟩

/-- Witness for C3 (amended): connection 1 registers, receives a text message
while connection 2 streams, and then sends a frame itself. -/
theorem observer_until_first_frame_witness :
    ((Server.init (fun _ => ReadyState.OPEN)).sessions 1).wavWriter = none ∧
    (∀ e ∈ [Event.message 1 (Msg.text "hello") 1, Event.message 2 (Msg.binary [4]) 2],
      e.isFrameOn 1 = false) ∧
    ((runState (onMessage 1 (Msg.text "BROWSER_CLIENT") 0
      (Server.init (fun _ => ReadyState.OPEN))).1
      [Event.message 1 (Msg.text "hello") 1, Event.message 2 (Msg.binary [4]) 2]).sessions 1).mode
      = Mode.dashboard :=
  ⟨rfl, by decide,
    (observer_until_first_frame (Server.init (fun _ => ReadyState.OPEN)) 1 0
      [Event.message 1 (Msg.text "hello") 1, Event.message 2 (Msg.binary [4]) 2]
      rfl (by decide)).1⟩

/-! ## The close handler -/

/-- C10: whatever the mode of the closing connection `c`, and whether or not
`c` was registered, the close handler leaves in `dashClients` exactly the
former members other than `c`, in their former order. -/
theorem close_removes_only_closing (s : Server) (c : Conn) :
    c ∉ (onClose c s).1.dashClients ∧
    (∀ x, x ∈ (onClose c s).1.dashClients ↔ x ∈ s.dashClients ∧ x ≠ c) ∧
    (onClose c s).1.dashClients.Sublist s.dashClients ∧
    (c ∉ s.dashClients → (onClose c s).1.dashClients = s.dashClients) := by
  rw [(onClose_dashClients c s).1]
  refine ⟨?_, ?_, ?_, ?_⟩
  · intro h
    exact ((mem_setDelete _ _ _).1 h).2 rfl
  · intro x
    exact mem_setDelete _ _ _
  · exact List.filter_sublist _
  · intro h
    unfold setDelete
    rw [List.filter_eq_self]
    intro x hx
    have : x ≠ c := fun hxc => h (hxc ▸ hx)
    simpa using this

theorem send_injective (p : Payload) : Function.Injective (fun c : Conn => Effect.send c p) := by
  intro a b h
  simpa using h

/-- C7: when the close handler of `c` finalizes the writer `w`, its effects
are `end()` on `w` followed by one send of the constant text `newStreamEvt`,
which names no file, to each member of `dashClients` other than `c`
whose transport is OPEN, and to nobody else; when it finalizes no writer it has
no effect at all. The message handler never sends a text payload. -/
theorem close_notifies_once (s : Server) (c : Conn) (hnd : s.dashClients.Nodup) :
    newStreamEvt = "\x7b\"type\":\"new_stream\"\x7d" ∧
    (∀ w, (s.sessions c).mode = Mode.live → (s.sessions c).wavWriter = some w →
      (onClose c s).2 = Effect.endWriter c w ::
        ((s.dashClients.filter
          (fun o => decide (o ≠ c) && decide (s.readyState o = ReadyState.OPEN))).map
          (fun o => Effect.send o (Payload.text newStreamEvt))) ∧
      (∀ o, (onClose c s).2.count (Effect.send o (Payload.text newStreamEvt)) =
        if o ∈ s.dashClients ∧ o ≠ c ∧ s.readyState o = ReadyState.OPEN then 1 else 0) ∧
      (∀ o p, Effect.send o p ∈ (onClose c s).2 → p = Payload.text newStreamEvt)) ∧
    ((∀ w, Effect.endWriter c w ∉ (onClose c s).2) → (onClose c s).2 = []) ∧
    (∀ (msg : Msg) (now : Int) (o : Conn) (str : String),
      Effect.send o (Payload.text str) ∉ (onMessage c msg now s).2) := by
  refine ⟨rfl, ?_, ?_, ?_⟩
  · intro w hm hw
    have h := (onClose_finalize c s w hm hw).1
    have hlist : (setDelete s.dashClients c).filter
          (fun o => decide (s.readyState o = ReadyState.OPEN)) =
        s.dashClients.filter
          (fun o => decide (o ≠ c) && decide (s.readyState o = ReadyState.OPEN)) := by
      unfold setDelete
      rw [List.filter_filter]
      congr 1
      funext o
      exact Bool.and_comm _ _
    rw [hlist] at h
    refine ⟨h, ?_, ?_⟩
    · intro o
      rw [h, List.count_cons, List.count_map_of_injective _ _ (send_injective _),
        List.count_eq_of_nodup (hnd.filter _)]
      simp [List.mem_filter]
    · intro o p hp
      rw [h] at hp
      rcases List.mem_cons.1 hp with h1 | h1
      · cases h1
      · rcases List.mem_map.1 h1 with ⟨a, _, ha⟩
        cases ha
        rfl
  · intro hno
    by_cases hm : (s.sessions c).mode = Mode.live
    · cases hw : (s.sessions c).wavWriter with
      | none => exact (onClose_idle c s (Or.inr hw)).1
      | some w =>
        exfalso
        apply hno w
        rw [(onClose_finalize c s w hm hw).1]
        exact List.mem_cons_self _ _
    · exact (onClose_idle c s (Or.inl hm)).1
  · intro msg now o str
    cases msg with
    | text t => rw [(onMessage_text c t now s).1]; exact List.not_mem_nil _
    | binary buf =>
      by_cases hm : (s.sessions c).mode = Mode.live
      · cases hw : (s.sessions c).wavWriter with
        | none => rw [(onMessage_binary_null c buf now s hm hw).1]; simp
        | some w => rw [(onMessage_binary_live c buf now s w hm hw).1]; simp [broadcast]
      · rw [(onMessage_binary_start c buf now s hm).1]; simp [broadcast]

/-- Witness for C7: the producer 1 closes while 2 and 3 are registered and
only 2 is OPEN. -/
theorem close_notifies_once_witness :
    ([2, 3] : List Conn).Nodup ∧
    (onClose 1
      { dashClients := [2, 3],
        sessions := fun _ => { mode := Mode.live, wavWriter := some 0, created := 1 },
        readyState := fun c => if c = 2 then ReadyState.OPEN else ReadyState.CLOSED }).2 =
      [Effect.endWriter 1 0, Effect.send 2 (Payload.text newStreamEvt)] := by
  refine ⟨by decide, ?_⟩
  have h := ((close_notifies_once
    { dashClients := [2, 3],
      sessions := fun _ => { mode := Mode.live, wavWriter := some 0, created := 1 },
      readyState := fun c => if c = 2 then ReadyState.OPEN else ReadyState.CLOSED } 1
    (by decide)).2.1 0 rfl rfl).1
  rw [h]
  decide

/-! ## Live forwarding to the observers -/

theorem setAdd_nodup (l : List Conn) (c : Conn) (h : l.Nodup) : (setAdd l c).Nodup := by
  unfold setAdd
  split
  · exact h
  · rename_i hc
    exact List.Nodup.append h (List.nodup_singleton c) (by simpa using hc)

theorem step_nodup (s : Server) (e : Event) (h : s.dashClients.Nodup) :
    (step s e).1.dashClients.Nodup := by
  cases e with
  | message ws msg now =>
    cases msg with
    | text str =>
      simp only [step]
      rw [(onMessage_text ws str now s).2.2.2]
      split
      · exact setAdd_nodup _ _ h
      · exact h
    | binary buf =>
      simp only [step]
      rw [(onMessage_dashClients_binary ws buf now s).1]
      exact h
  | close ws =>
    simp only [step]
    rw [(onClose_dashClients ws s).1]
    exact h.filter _
  | transport c2 r => exact h

theorem runState_nodup (tr : List Event) :
    ∀ s : Server, s.dashClients.Nodup → (runState s tr).dashClients.Nodup := by
  induction tr with
  | nil => intro s h; exact h
  | cons e es ih => intro s h; exact ih _ (step_nodup s e h)

theorem binSentTo_append (o : Conn) (a b : List Effect) :
    binSentTo o (a ++ b) = binSentTo o a ++ binSentTo o b := by
  induction a with
  | nil => rfl
  | cons e es ih =>
    cases e with
    | send c p => cases p <;> simp [binSentTo, ih]
    | newWriter ws w name => simpa [binSentTo] using ih
    | write ws w buf => simpa [binSentTo] using ih
    | endWriter ws w => simpa [binSentTo] using ih
    | typeError ws => simpa [binSentTo] using ih

theorem binSentTo_sends_bin (o : Conn) (buf : Bytes) (l : List Conn) (h : l.Nodup) :
    binSentTo o (l.map (fun c => Effect.send c (Payload.bin buf))) =
      if o ∈ l then [buf] else [] := by
  induction l with
  | nil => rfl
  | cons a l ih =>
    have hl := (List.nodup_cons.1 h)
    rw [List.map_cons]
    show (if a = o then [buf] else []) ++ binSentTo o (l.map _) = _
    rw [ih hl.2]
    by_cases hao : a = o
    · subst hao
      simp [hl.1]
    · have : ¬ o = a := fun h2 => hao h2.symm
      simp [hao, this]

theorem binSentTo_sends_text (o : Conn) (str : String) (l : List Conn) :
    binSentTo o (l.map (fun c => Effect.send c (Payload.text str))) = [] := by
  induction l with
  | nil => rfl
  | cons a l ih => simpa [binSentTo] using ih

theorem binSentTo_broadcast_bin (o : Conn) (buf : Bytes) (s : Server) (h : s.dashClients.Nodup) :
    binSentTo o (broadcast s (Payload.bin buf)) =
      if o ∈ s.dashClients ∧ s.readyState o = ReadyState.OPEN then [buf] else [] := by
  unfold broadcast
  rw [binSentTo_sends_bin o buf _ (h.filter _)]
  simp [List.mem_filter]

theorem binSentTo_onClose (o ws : Conn) (s : Server) : binSentTo o (onClose ws s).2 = [] := by
  by_cases hm : (s.sessions ws).mode = Mode.live
  · cases hw : (s.sessions ws).wavWriter with
    | none => rw [(onClose_idle ws s (Or.inr hw)).1]; rfl
    | some w =>
      rw [(onClose_finalize ws s w hm hw).1]
      show binSentTo o (List.map _ _) = []
      exact binSentTo_sends_text o newStreamEvt _
  · rw [(onClose_idle ws s (Or.inl hm)).1]; rfl

theorem forwarding_general (o : Conn) (tr : List Event) :
    ∀ s : Server, s.dashClients.Nodup →
      (∀ c, (s.sessions c).mode = Mode.live → (s.sessions c).wavWriter = none →
        ∀ e ∈ tr, e.isMessageOn c = false) →
      closeIsFinal tr = true →
      binSentTo o (runEffects s tr) = framesWhileObserving o s tr := by
  induction tr with
  | nil => intro s _ _ _; rfl
  | cons e es ih =>
    intro s hnd hsafe hfin
    rw [runEffects_cons, binSentTo_append]
    show _ = frameSeenBy o s e ++ framesWhileObserving o (step s e).1 es
    have hnd1 := step_nodup s e hnd
    have hfin1 : closeIsFinal es = true := by
      cases e with
      | message ws msg now => exact hfin
      | close ws =>
        simp only [closeIsFinal, Bool.and_eq_true] at hfin
        exact hfin.2
      | transport c r => exact hfin
    have hsafe1 : ∀ c, ((step s e).1.sessions c).mode = Mode.live →
        ((step s e).1.sessions c).wavWriter = none → ∀ x ∈ es, x.isMessageOn c = false := by
      intro c hm hw x hx
      by_cases hon : e.isOn c = true
      · cases e with
        | message ws msg now =>
          have hws : ws = c := by simpa [Event.isOn] using hon
          subst hws
          cases msg with
          | text str =>
            simp only [step] at hm hw
            rw [(onMessage_text ws str now s).2.2.1] at hm hw
            by_cases hs : str = "BROWSER_CLIENT"
            · simp [hs] at hm
            · simp only [hs, if_false] at hm hw
              exact hsafe ws hm hw x (List.mem_cons_of_mem _ hx)
          | binary buf =>
            simp only [step] at hm hw
            by_cases hm0 : (s.sessions ws).mode = Mode.live
            · cases hw0 : (s.sessions ws).wavWriter with
              | none =>
                have := hsafe ws hm0 hw0 _ (List.mem_cons_self _ _)
                simp [Event.isMessageOn] at this
              | some w =>
                rw [(onMessage_binary_live ws buf now s w hm0 hw0).2, hw0] at hw
                cases hw
            · rw [(onMessage_binary_start ws buf now s hm0).2] at hw
              cases hw
        | close ws =>
          have hws : ws = c := by simpa [Event.isOn] using hon
          subst hws
          simp only [closeIsFinal, Bool.and_eq_true, List.all_eq_true] at hfin
          simpa using hfin.1 x hx
        | transport c2 r => simp [Event.isOn] at hon
      · have hoff : e.isOn c = false := by simpa using hon
        rw [step_sessions_other s e c hoff] at hm hw
        exact hsafe c hm hw x (List.mem_cons_of_mem _ hx)
    rw [ih (step s e).1 hnd1 hsafe1 hfin1]
    congr 1
    cases e with
    | message ws msg now =>
      cases msg with
      | text str =>
        simp only [step]
        rw [(onMessage_text ws str now s).1]
        rfl
      | binary buf =>
        simp only [step]
        by_cases hm0 : (s.sessions ws).mode = Mode.live
        · cases hw0 : (s.sessions ws).wavWriter with
          | none =>
            have := hsafe ws hm0 hw0 _ (List.mem_cons_self _ _)
            simp [Event.isMessageOn] at this
          | some w =>
            rw [(onMessage_binary_live ws buf now s w hm0 hw0).1, binSentTo_append,
              binSentTo_broadcast_bin o buf s hnd]
            rfl
        · rw [(onMessage_binary_start ws buf now s hm0).1, binSentTo_append,
            binSentTo_broadcast_bin o buf s hnd]
          rfl
    | close ws =>
      simp only [step]
      exact binSentTo_onClose o ws s
    | transport c r => rfl

/-- C6: on every trace the WebSocket library can produce (no message of a
connection after its close event), started from the initial server state, the
binary payloads sent to a connection `o` are, in order, exactly the binary
frames handled while `o` was a member of `dashClients` with an OPEN
transport; a frame handled at any other time is never sent to `o`. -/
theorem observer_receives_frames_while_open (rs : Conn → ReadyState) (tr : List Event)
    (o : Conn) (hfin : closeIsFinal tr = true) :
    binSentTo o (runEffects (Server.init rs) tr) = framesWhileObserving o (Server.init rs) tr := by
  apply forwarding_general o tr (Server.init rs) List.nodup_nil _ hfin
  intro c hm
  simp [Server.init, Session.fresh] at hm

/-- Witness for C6: connection 1 registers after the first frame of producer
2 and is not OPEN during the third; it receives the second and fourth frame. -/
theorem observer_receives_frames_while_open_witness :
    closeIsFinal [Event.message 2 (Msg.binary [1]) 0,
      Event.message 1 (Msg.text "BROWSER_CLIENT") 1, Event.message 2 (Msg.binary [2]) 2,
      Event.transport 1 ReadyState.CLOSING, Event.message 2 (Msg.binary [3]) 3,
      Event.transport 1 ReadyState.OPEN, Event.message 2 (Msg.binary [4]) 4,
      Event.close 2, Event.close 1] = true ∧
    binSentTo 1 (runEffects (Server.init (fun _ => ReadyState.OPEN))
      [Event.message 2 (Msg.binary [1]) 0,
      Event.message 1 (Msg.text "BROWSER_CLIENT") 1, Event.message 2 (Msg.binary [2]) 2,
      Event.transport 1 ReadyState.CLOSING, Event.message 2 (Msg.binary [3]) 3,
      Event.transport 1 ReadyState.OPEN, Event.message 2 (Msg.binary [4]) 4,
      Event.close 2, Event.close 1]) = [[2], [4]] := by
  refine ⟨by decide, ?_⟩
  rw [observer_receives_frames_while_open _ _ 1 (by decide)]
  decide

/-! ## File names are ordered by creation time -/

theorem DayFromYear_succ (y : Int) : DayFromYear (y + 1) = DayFromYear y + DaysInYear y := by
  unfold DayFromYear DaysInYear
  split_ifs <;> omega

theorem DayFromYear_strictMono (a b : Int) (h : a < b) : DayFromYear a < DayFromYear b := by
  unfold DayFromYear
  omega

theorem YearFromTime_spec (t : Int) :
    DayFromYear (YearFromTime t) ≤ Day t ∧ Day t < DayFromYear (YearFromTime t + 1) := by
  unfold YearFromTime
  simp only
  generalize Day t = d
  split_ifs with h1 h2
  · constructor
    · exact h1
    · unfold DayFromYear at *
      omega
  · exact ⟨h2, by omega⟩
  · constructor
    · unfold DayFromYear at *
      omega
    · simp only [sub_add_cancel]
      omega

theorem timeOfDay_lex (t1 t2 : Int) (h : t1 < t2) (hd : Day t1 = Day t2) :
    HourFromTime t1 < HourFromTime t2 ∨ (HourFromTime t1 = HourFromTime t2 ∧
      (MinFromTime t1 < MinFromTime t2 ∨ (MinFromTime t1 = MinFromTime t2 ∧
        (SecFromTime t1 < SecFromTime t2 ∨ (SecFromTime t1 = SecFromTime t2 ∧
          msFromTime t1 < msFromTime t2))))) := by
  unfold Day msPerDay at hd
  unfold HourFromTime MinFromTime SecFromTime msFromTime
  have e1 : ∀ t : Int, t / 60000 = t / 1000 / 60 := fun t => by omega
  have e2 : ∀ t : Int, t / 3600000 = t / 1000 / 60 / 60 := fun t => by omega
  have e3 : ∀ t : Int, t / 86400000 = t / 1000 / 60 / 60 / 24 := fun t => by omega
  rw [e3 t1, e3 t2] at hd
  rw [e1 t1, e1 t2, e2 t1, e2 t2]
  omega

theorem YearFromTime_mono (t1 t2 : Int) (h : Day t1 ≤ Day t2) :
    YearFromTime t1 ≤ YearFromTime t2 := by
  by_contra hc
  have s1 := YearFromTime_spec t1
  have s2 := YearFromTime_spec t2
  have h3 : DayFromYear (YearFromTime t2 + 1) ≤ DayFromYear (YearFromTime t1) := by
    rcases lt_or_eq_of_le (show YearFromTime t2 + 1 ≤ YearFromTime t1 by omega) with h4 | h4
    · exact le_of_lt (DayFromYear_strictMono _ _ h4)
    · rw [h4]
  omega

theorem DayWithinYear_bounds (t : Int) :
    0 ≤ DayWithinYear t ∧ DayWithinYear t < 365 + InLeapYear t ∧
    (InLeapYear t = 0 ∨ InLeapYear t = 1) := by
  have s := YearFromTime_spec t
  rw [DayFromYear_succ] at s
  unfold DayWithinYear InLeapYear
  have hd : DaysInYear (YearFromTime t) = 365 ∨ DaysInYear (YearFromTime t) = 366 := by
    unfold DaysInYear
    split_ifs <;> simp
  rcases hd with hd | hd <;> simp [hd] <;> omega

theorem DateFromTime_eq (t : Int) :
    DateFromTime t = DayWithinYear t -
      (if MonthFromTime t = 0 then -1
      else if MonthFromTime t = 1 then 30
      else if MonthFromTime t = 2 then 58 + InLeapYear t
      else if MonthFromTime t = 3 then 89 + InLeapYear t
      else if MonthFromTime t = 4 then 119 + InLeapYear t
      else if MonthFromTime t = 5 then 150 + InLeapYear t
      else if MonthFromTime t = 6 then 180 + InLeapYear t
      else if MonthFromTime t = 7 then 211 + InLeapYear t
      else if MonthFromTime t = 8 then 242 + InLeapYear t
      else if MonthFromTime t = 9 then 272 + InLeapYear t
      else if MonthFromTime t = 10 then 303 + InLeapYear t
      else 333 + InLeapYear t) := by
  unfold DateFromTime
  simp only
  split <;> simp_all <;> omega

theorem MonthFromTime_cases (t : Int) :
    (MonthFromTime t = 0 ∧ DayWithinYear t < 31) ∨
    (MonthFromTime t = 1 ∧ 31 ≤ DayWithinYear t ∧ DayWithinYear t < 59 + InLeapYear t) ∨
    (MonthFromTime t = 2 ∧ 59 + InLeapYear t ≤ DayWithinYear t
      ∧ DayWithinYear t < 90 + InLeapYear t) ∨
    (MonthFromTime t = 3 ∧ 90 + InLeapYear t ≤ DayWithinYear t
      ∧ DayWithinYear t < 120 + InLeapYear t) ∨
    (MonthFromTime t = 4 ∧ 120 + InLeapYear t ≤ DayWithinYear t
      ∧ DayWithinYear t < 151 + InLeapYear t) ∨
    (MonthFromTime t = 5 ∧ 151 + InLeapYear t ≤ DayWithinYear t
      ∧ DayWithinYear t < 181 + InLeapYear t) ∨
    (MonthFromTime t = 6 ∧ 181 + InLeapYear t ≤ DayWithinYear t
      ∧ DayWithinYear t < 212 + InLeapYear t) ∨
    (MonthFromTime t = 7 ∧ 212 + InLeapYear t ≤ DayWithinYear t
      ∧ DayWithinYear t < 243 + InLeapYear t) ∨
    (MonthFromTime t = 8 ∧ 243 + InLeapYear t ≤ DayWithinYear t
      ∧ DayWithinYear t < 273 + InLeapYear t) ∨
    (MonthFromTime t = 9 ∧ 273 + InLeapYear t ≤ DayWithinYear t
      ∧ DayWithinYear t < 304 + InLeapYear t) ∨
    (MonthFromTime t = 10 ∧ 304 + InLeapYear t ≤ DayWithinYear t
      ∧ DayWithinYear t < 334 + InLeapYear t) ∨
    (MonthFromTime t = 11 ∧ 334 + InLeapYear t ≤ DayWithinYear t) := by
  have key : ∀ m, m = MonthFromTime t →
      (m = 0 ∧ DayWithinYear t < 31) ∨
      (m = 1 ∧ 31 ≤ DayWithinYear t ∧ DayWithinYear t < 59 + InLeapYear t) ∨
      (m = 2 ∧ 59 + InLeapYear t ≤ DayWithinYear t ∧ DayWithinYear t < 90 + InLeapYear t) ∨
      (m = 3 ∧ 90 + InLeapYear t ≤ DayWithinYear t ∧ DayWithinYear t < 120 + InLeapYear t) ∨
      (m = 4 ∧ 120 + InLeapYear t ≤ DayWithinYear t ∧ DayWithinYear t < 151 + InLeapYear t) ∨
      (m = 5 ∧ 151 + InLeapYear t ≤ DayWithinYear t ∧ DayWithinYear t < 181 + InLeapYear t) ∨
      (m = 6 ∧ 181 + InLeapYear t ≤ DayWithinYear t ∧ DayWithinYear t < 212 + InLeapYear t) ∨
      (m = 7 ∧ 212 + InLeapYear t ≤ DayWithinYear t ∧ DayWithinYear t < 243 + InLeapYear t) ∨
      (m = 8 ∧ 243 + InLeapYear t ≤ DayWithinYear t ∧ DayWithinYear t < 273 + InLeapYear t) ∨
      (m = 9 ∧ 273 + InLeapYear t ≤ DayWithinYear t ∧ DayWithinYear t < 304 + InLeapYear t) ∨
      (m = 10 ∧ 304 + InLeapYear t ≤ DayWithinYear t ∧ DayWithinYear t < 334 + InLeapYear t) ∨
      (m = 11 ∧ 334 + InLeapYear t ≤ DayWithinYear t) := by
    intro m hm
    unfold MonthFromTime at hm
    simp only at hm
    generalize DayWithinYear t = d at hm ⊢
    generalize InLeapYear t = k at hm ⊢
    by_cases h1 : d < 31
    · rw [if_pos h1] at hm
      left
      exact ⟨hm, h1⟩
    rw [if_neg h1] at hm
    by_cases h2 : d < 59 + k
    · rw [if_pos h2] at hm
      right; left
      exact ⟨hm, by omega, h2⟩
    rw [if_neg h2] at hm
    by_cases h3 : d < 90 + k
    · rw [if_pos h3] at hm
      right; right; left
      exact ⟨hm, by omega, h3⟩
    rw [if_neg h3] at hm
    by_cases h4 : d < 120 + k
    · rw [if_pos h4] at hm
      right; right; right; left
      exact ⟨hm, by omega, h4⟩
    rw [if_neg h4] at hm
    by_cases h5 : d < 151 + k
    · rw [if_pos h5] at hm
      right; right; right; right; left
      exact ⟨hm, by omega, h5⟩
    rw [if_neg h5] at hm
    by_cases h6 : d < 181 + k
    · rw [if_pos h6] at hm
      right; right; right; right; right; left
      exact ⟨hm, by omega, h6⟩
    rw [if_neg h6] at hm
    by_cases h7 : d < 212 + k
    · rw [if_pos h7] at hm
      right; right; right; right; right; right; left
      exact ⟨hm, by omega, h7⟩
    rw [if_neg h7] at hm
    by_cases h8 : d < 243 + k
    · rw [if_pos h8] at hm
      right; right; right; right; right; right; right; left
      exact ⟨hm, by omega, h8⟩
    rw [if_neg h8] at hm
    by_cases h9 : d < 273 + k
    · rw [if_pos h9] at hm
      right; right; right; right; right; right; right; right; left
      exact ⟨hm, by omega, h9⟩
    rw [if_neg h9] at hm
    by_cases h10 : d < 304 + k
    · rw [if_pos h10] at hm
      right; right; right; right; right; right; right; right; right; left
      exact ⟨hm, by omega, h10⟩
    rw [if_neg h10] at hm
    by_cases h11 : d < 334 + k
    · rw [if_pos h11] at hm
      right; right; right; right; right; right; right; right; right; right; left
      exact ⟨hm, by omega, h11⟩
    rw [if_neg h11] at hm
    right; right; right; right; right; right; right; right; right; right; right
    exact ⟨hm, by omega⟩
  exact key _ rfl

theorem monthDate_cases (t : Int) :
    (MonthFromTime t = 0 ∧ DateFromTime t = DayWithinYear t + 1 ∧ DayWithinYear t < 31) ∨
    (MonthFromTime t = 1 ∧ DateFromTime t = DayWithinYear t - 30 ∧ 31 ≤ DayWithinYear t
      ∧ DayWithinYear t < 59 + InLeapYear t) ∨
    (MonthFromTime t = 2 ∧ DateFromTime t = DayWithinYear t - 58 - InLeapYear t
      ∧ 59 + InLeapYear t ≤ DayWithinYear t ∧ DayWithinYear t < 90 + InLeapYear t) ∨
    (MonthFromTime t = 3 ∧ DateFromTime t = DayWithinYear t - 89 - InLeapYear t
      ∧ 90 + InLeapYear t ≤ DayWithinYear t ∧ DayWithinYear t < 120 + InLeapYear t) ∨
    (MonthFromTime t = 4 ∧ DateFromTime t = DayWithinYear t - 119 - InLeapYear t
      ∧ 120 + InLeapYear t ≤ DayWithinYear t ∧ DayWithinYear t < 151 + InLeapYear t) ∨
    (MonthFromTime t = 5 ∧ DateFromTime t = DayWithinYear t - 150 - InLeapYear t
      ∧ 151 + InLeapYear t ≤ DayWithinYear t ∧ DayWithinYear t < 181 + InLeapYear t) ∨
    (MonthFromTime t = 6 ∧ DateFromTime t = DayWithinYear t - 180 - InLeapYear t
      ∧ 181 + InLeapYear t ≤ DayWithinYear t ∧ DayWithinYear t < 212 + InLeapYear t) ∨
    (MonthFromTime t = 7 ∧ DateFromTime t = DayWithinYear t - 211 - InLeapYear t
      ∧ 212 + InLeapYear t ≤ DayWithinYear t ∧ DayWithinYear t < 243 + InLeapYear t) ∨
    (MonthFromTime t = 8 ∧ DateFromTime t = DayWithinYear t - 242 - InLeapYear t
      ∧ 243 + InLeapYear t ≤ DayWithinYear t ∧ DayWithinYear t < 273 + InLeapYear t) ∨
    (MonthFromTime t = 9 ∧ DateFromTime t = DayWithinYear t - 272 - InLeapYear t
      ∧ 273 + InLeapYear t ≤ DayWithinYear t ∧ DayWithinYear t < 304 + InLeapYear t) ∨
    (MonthFromTime t = 10 ∧ DateFromTime t = DayWithinYear t - 303 - InLeapYear t
      ∧ 304 + InLeapYear t ≤ DayWithinYear t ∧ DayWithinYear t < 334 + InLeapYear t) ∨
    (MonthFromTime t = 11 ∧ DateFromTime t = DayWithinYear t - 333 - InLeapYear t
      ∧ 334 + InLeapYear t ≤ DayWithinYear t) := by
  have e := DateFromTime_eq t
  have hc := MonthFromTime_cases t
  generalize MonthFromTime t = m at e hc ⊢
  generalize DateFromTime t = dt at e ⊢
  generalize DayWithinYear t = d at e hc ⊢
  generalize InLeapYear t = k at e hc ⊢
  rcases hc with ⟨rfl, h⟩ | ⟨rfl, h⟩ | ⟨rfl, h⟩ | ⟨rfl, h⟩ | ⟨rfl, h⟩ | ⟨rfl, h⟩ | ⟨rfl, h⟩ |
    ⟨rfl, h⟩ | ⟨rfl, h⟩ | ⟨rfl, h⟩ | ⟨rfl, h⟩ | ⟨rfl, h⟩ <;> norm_num at e
  · left
    exact ⟨rfl, by omega, h⟩
  · right; left
    exact ⟨rfl, by omega, h.1, h.2⟩
  · right; right; left
    exact ⟨rfl, by omega, h.1, h.2⟩
  · right; right; right; left
    exact ⟨rfl, by omega, h.1, h.2⟩
  · right; right; right; right; left
    exact ⟨rfl, by omega, h.1, h.2⟩
  · right; right; right; right; right; left
    exact ⟨rfl, by omega, h.1, h.2⟩
  · right; right; right; right; right; right; left
    exact ⟨rfl, by omega, h.1, h.2⟩
  · right; right; right; right; right; right; right; left
    exact ⟨rfl, by omega, h.1, h.2⟩
  · right; right; right; right; right; right; right; right; left
    exact ⟨rfl, by omega, h.1, h.2⟩
  · right; right; right; right; right; right; right; right; right; left
    exact ⟨rfl, by omega, h.1, h.2⟩
  · right; right; right; right; right; right; right; right; right; right; left
    exact ⟨rfl, by omega, h.1, h.2⟩
  · right; right; right; right; right; right; right; right; right; right; right
    exact ⟨rfl, by omega, h⟩

theorem month_date_bounds (t : Int) :
    0 ≤ MonthFromTime t ∧ MonthFromTime t ≤ 11 ∧ 1 ≤ DateFromTime t ∧ DateFromTime t ≤ 31 := by
  have hb := DayWithinYear_bounds t
  have hc := monthDate_cases t
  generalize MonthFromTime t = m at hc ⊢
  generalize DateFromTime t = dt at hc ⊢
  generalize DayWithinYear t = d at hc hb
  generalize InLeapYear t = k at hc hb
  rcases hc with ⟨rfl, rfl, h⟩ | ⟨rfl, rfl, h⟩ | ⟨rfl, rfl, h⟩ | ⟨rfl, rfl, h⟩ | ⟨rfl, rfl, h⟩ |
    ⟨rfl, rfl, h⟩ | ⟨rfl, rfl, h⟩ | ⟨rfl, rfl, h⟩ | ⟨rfl, rfl, h⟩ | ⟨rfl, rfl, h⟩ |
    ⟨rfl, rfl, h⟩ | ⟨rfl, rfl, h⟩ <;> omega

theorem month_date_lex (t1 t2 : Int) (hy : YearFromTime t1 = YearFromTime t2)
    (hd : Day t1 < Day t2) :
    MonthFromTime t1 < MonthFromTime t2 ∨
      (MonthFromTime t1 = MonthFromTime t2 ∧ DateFromTime t1 < DateFromTime t2) := by
  have hb1 := DayWithinYear_bounds t1
  have hb2 := DayWithinYear_bounds t2
  have hk : InLeapYear t1 = InLeapYear t2 := by unfold InLeapYear; rw [hy]
  have hlt : DayWithinYear t1 < DayWithinYear t2 := by unfold DayWithinYear; rw [hy]; omega
  have hc1 := monthDate_cases t1
  have hc2 := monthDate_cases t2
  rw [hk] at hb1 hc1
  generalize MonthFromTime t1 = m1 at hc1 ⊢
  generalize DateFromTime t1 = dt1 at hc1 ⊢
  generalize DayWithinYear t1 = d1 at hc1 hb1 hlt
  generalize MonthFromTime t2 = m2 at hc2 ⊢
  generalize DateFromTime t2 = dt2 at hc2 ⊢
  generalize DayWithinYear t2 = d2 at hc2 hb2 hlt
  generalize InLeapYear t2 = k at hc1 hc2 hb1 hb2
  rcases hc1 with ⟨rfl, rfl, h⟩ | ⟨rfl, rfl, h⟩ | ⟨rfl, rfl, h⟩ | ⟨rfl, rfl, h⟩ | ⟨rfl, rfl, h⟩ |
    ⟨rfl, rfl, h⟩ | ⟨rfl, rfl, h⟩ | ⟨rfl, rfl, h⟩ | ⟨rfl, rfl, h⟩ | ⟨rfl, rfl, h⟩ |
    ⟨rfl, rfl, h⟩ | ⟨rfl, rfl, h⟩ <;>
  rcases hc2 with ⟨rfl, rfl, g⟩ | ⟨rfl, rfl, g⟩ | ⟨rfl, rfl, g⟩ | ⟨rfl, rfl, g⟩ | ⟨rfl, rfl, g⟩ |
    ⟨rfl, rfl, g⟩ | ⟨rfl, rfl, g⟩ | ⟨rfl, rfl, g⟩ | ⟨rfl, rfl, g⟩ | ⟨rfl, rfl, g⟩ |
    ⟨rfl, rfl, g⟩ | ⟨rfl, rfl, g⟩ <;> omega

theorem date_fields_of_day_eq (t1 t2 : Int) (hd : Day t1 = Day t2) :
    YearFromTime t1 = YearFromTime t2 ∧ MonthFromTime t1 = MonthFromTime t2 ∧
    DateFromTime t1 = DateFromTime t2 := by
  have hy : YearFromTime t1 = YearFromTime t2 := by unfold YearFromTime; rw [hd]
  have hk : InLeapYear t1 = InLeapYear t2 := by unfold InLeapYear; rw [hy]
  have hw : DayWithinYear t1 = DayWithinYear t2 := by unfold DayWithinYear; rw [hy, hd]
  have hm : MonthFromTime t1 = MonthFromTime t2 := by unfold MonthFromTime; rw [hk, hw]
  refine ⟨hy, hm, ?_⟩
  rw [DateFromTime_eq, DateFromTime_eq, hm, hk, hw]

theorem time_fields_bounds (t : Int) :
    0 ≤ HourFromTime t ∧ HourFromTime t < 24 ∧ 0 ≤ MinFromTime t ∧ MinFromTime t < 60 ∧
    0 ≤ SecFromTime t ∧ SecFromTime t < 60 ∧ 0 ≤ msFromTime t ∧ msFromTime t < 1000 := by
  unfold HourFromTime MinFromTime SecFromTime msFromTime
  omega

theorem year_bounds (t : Int) (hlo : -62167219200000 ≤ t) (hhi : t ≤ 253402300799999) :
    0 ≤ YearFromTime t ∧ YearFromTime t ≤ 9999 := by
  have s := YearFromTime_spec t
  have hd : -719528 ≤ Day t ∧ Day t < 2932897 := by unfold Day msPerDay; omega
  constructor
  · by_contra hc
    have h1 : DayFromYear (YearFromTime t + 1) ≤ DayFromYear 0 := by
      rcases lt_or_eq_of_le (show YearFromTime t + 1 ≤ 0 by omega) with h4 | h4
      · exact le_of_lt (DayFromYear_strictMono _ _ h4)
      · rw [h4]
    have h2 : DayFromYear 0 = -719528 := by decide
    omega
  · by_contra hc
    have h1 : DayFromYear 10000 ≤ DayFromYear (YearFromTime t) := by
      rcases lt_or_eq_of_le (show 10000 ≤ YearFromTime t by omega) with h4 | h4
      · exact le_of_lt (DayFromYear_strictMono _ _ h4)
      · rw [← h4]
    have h2 : DayFromYear 10000 = 2932897 := by decide
    omega

theorem fields_lex (t1 t2 : Int) (h : t1 < t2) :
    YearFromTime t1 < YearFromTime t2 ∨ (YearFromTime t1 = YearFromTime t2 ∧
      (MonthFromTime t1 < MonthFromTime t2 ∨ (MonthFromTime t1 = MonthFromTime t2 ∧
        (DateFromTime t1 < DateFromTime t2 ∨ (DateFromTime t1 = DateFromTime t2 ∧
          (HourFromTime t1 < HourFromTime t2 ∨ (HourFromTime t1 = HourFromTime t2 ∧
            (MinFromTime t1 < MinFromTime t2 ∨ (MinFromTime t1 = MinFromTime t2 ∧
              (SecFromTime t1 < SecFromTime t2 ∨ (SecFromTime t1 = SecFromTime t2 ∧
                msFromTime t1 < msFromTime t2))))))))))) := by
  have hday : Day t1 ≤ Day t2 := by unfold Day msPerDay; omega
  rcases lt_or_eq_of_le hday with hd | hd
  · rcases lt_or_eq_of_le (YearFromTime_mono t1 t2 hday) with hy | hy
    · exact Or.inl hy
    · refine Or.inr ⟨hy, ?_⟩
      rcases month_date_lex t1 t2 hy hd with hm | ⟨hm, hdt⟩
      · exact Or.inl hm
      · exact Or.inr ⟨hm, Or.inl hdt⟩
  · have hf := date_fields_of_day_eq t1 t2 hd
    exact Or.inr ⟨hf.1, Or.inr ⟨hf.2.1, Or.inr ⟨hf.2.2, timeOfDay_lex t1 t2 h hd⟩⟩⟩

theorem length_padDigits (w n : Nat) : (padDigits w n).length = w := by
  induction w generalizing n with
  | zero => rfl
  | succ w ih => simp [padDigits, ih]

theorem digitChar_lt_fin : ∀ a b : Fin 10, a < b → digitChar a.val < digitChar b.val := by
  decide

theorem digitChar_mod (n : Nat) : digitChar (n % 10) = digitChar n := by
  simp [digitChar]

theorem digitChar_lt (a b : Nat) (h : a % 10 < b % 10) : digitChar a < digitChar b := by
  have := digitChar_lt_fin ⟨a % 10, Nat.mod_lt _ (by norm_num)⟩ ⟨b % 10, Nat.mod_lt _ (by norm_num)⟩ h
  simpa [digitChar_mod] using this

theorem append_lt_append_left (p r1 r2 : List Char) (h : List.lt r1 r2) :
    List.lt (p ++ r1) (p ++ r2) := by
  induction p with
  | nil => exact h
  | cons a p ih => exact List.lt.tail (lt_irrefl a) (lt_irrefl a) ih

theorem lt_append_of_lt (x y r1 r2 : List Char) (hlen : x.length = y.length)
    (h : List.lt x y) : List.lt (x ++ r1) (y ++ r2) := by
  induction x generalizing y with
  | nil =>
    cases y with
    | nil => cases h
    | cons b bs => simp at hlen
  | cons a as ih =>
    cases y with
    | nil => cases h
    | cons b bs =>
      cases h with
      | head _ _ hab => exact List.lt.head _ _ hab
      | tail h1 h2 h3 =>
        exact List.lt.tail h1 h2 (ih bs (by simpa using hlen) h3)

theorem padDigits_lt (w : Nat) : ∀ a b : Nat, a < 10 ^ w → b < 10 ^ w → a < b →
    List.lt (padDigits w a) (padDigits w b) := by
  induction w with
  | zero => intro a b ha hb hab; simp at ha hb; omega
  | succ w ih =>
    intro a b ha hb hab
    simp only [padDigits]
    have ha2 : a / 10 < 10 ^ w := by rw [pow_succ] at ha; omega
    have hb2 : b / 10 < 10 ^ w := by rw [pow_succ] at hb; omega
    rcases Nat.lt_or_ge (a / 10) (b / 10) with h | h
    · exact lt_append_of_lt _ _ _ _ (by simp [length_padDigits]) (ih _ _ ha2 hb2 h)
    · have heq : a / 10 = b / 10 := by omega
      rw [heq]
      apply append_lt_append_left
      exact List.lt.head _ _ (digitChar_lt a b (by omega))

theorem seg_lt (w v1 v2 : Nat) (sep : Char) (r1 r2 : List Char) (h1 : v1 < 10 ^ w)
    (h2 : v2 < 10 ^ w) (h : v1 < v2 ∨ (v1 = v2 ∧ List.lt r1 r2)) :
    List.lt (padDigits w v1 ++ sep :: r1) (padDigits w v2 ++ sep :: r2) := by
  rcases h with h | ⟨h, hr⟩
  · exact lt_append_of_lt _ _ _ _ (by simp [length_padDigits]) (padDigits_lt w v1 v2 h1 h2 h)
  · rw [h]
    exact append_lt_append_left _ _ _ (List.lt.tail (lt_irrefl sep) (lt_irrefl sep) hr)

theorem replaceUnsafe_digit (n : Nat) : replaceUnsafe (digitChar n) = digitChar n := by
  have h : ∀ a : Fin 10, replaceUnsafe (digitChar a.val) = digitChar a.val := by decide
  have := h ⟨n % 10, Nat.mod_lt _ (by norm_num)⟩
  simpa [digitChar_mod] using this

theorem map_replaceUnsafe_padDigits (w n : Nat) :
    (padDigits w n).map replaceUnsafe = padDigits w n := by
  induction w generalizing n with
  | zero => rfl
  | succ w ih => simp [padDigits, ih, replaceUnsafe_digit]

theorem replaceUnsafe_safe (c : Char) : replaceUnsafe c ≠ ':' ∧ replaceUnsafe c ≠ '.' := by
  unfold replaceUnsafe
  split_ifs with h
  · decide
  · exact ⟨fun h2 => h (Or.inl h2), fun h2 => h (Or.inr h2)⟩

theorem tsChars_shape (t : Int) (h0 : 0 ≤ YearFromTime t) (h1 : YearFromTime t ≤ 9999) :
    tsChars t = padDigits 4 (YearFromTime t).toNat ++ '-' ::
      (padDigits 2 (MonthFromTime t + 1).toNat ++ '-' ::
      (padDigits 2 (DateFromTime t).toNat ++ 'T' ::
      (padDigits 2 (HourFromTime t).toNat ++ '-' ::
      (padDigits 2 (MinFromTime t).toNat ++ '-' ::
      (padDigits 2 (SecFromTime t).toNat ++ '-' ::
      (padDigits 3 (msFromTime t).toNat ++ ['Z'])))))) := by
  have e1 : replaceUnsafe '-' = '-' := by decide
  have e2 : replaceUnsafe 'T' = 'T' := by decide
  have e3 : replaceUnsafe ':' = '-' := by decide
  have e4 : replaceUnsafe '.' = '-' := by decide
  have e5 : replaceUnsafe 'Z' = 'Z' := by decide
  unfold tsChars toISOChars isoYear
  rw [if_pos ⟨h0, h1⟩]
  simp only [List.map_append, List.map_cons, List.map_nil, map_replaceUnsafe_padDigits, e1, e2,
    e3, e4, e5, List.append_assoc, List.singleton_append, List.cons_append, List.nil_append]

theorem ts_toList (t : Int) : (ts t).toList = tsChars t := by
  unfold ts
  rfl

theorem liveName_data (t : Int) :
    (liveName t).toList = "livestream_".toList ++ (tsChars t ++ ".wav".toList) := by
  unfold liveName ts
  simp [String.toList, String.data_append]

theorem tsChars_lt (t1 t2 : Int) (h : t1 < t2) (hy1 : 0 ≤ YearFromTime t1)
    (hy2 : YearFromTime t2 ≤ 9999) (ext : List Char) :
    List.lt (tsChars t1 ++ ext) (tsChars t2 ++ ext) := by
  have hday : Day t1 ≤ Day t2 := by unfold Day msPerDay; omega
  have hmono := YearFromTime_mono t1 t2 hday
  rw [tsChars_shape t1 hy1 (by omega), tsChars_shape t2 (by omega) hy2]
  have hl := fields_lex t1 t2 h
  have b1 := month_date_bounds t1
  have b2 := month_date_bounds t2
  have c1 := time_fields_bounds t1
  have c2 := time_fields_bounds t2
  simp only [List.append_assoc, List.cons_append, List.nil_append]
  generalize YearFromTime t1 = y1 at *
  generalize YearFromTime t2 = y2 at *
  generalize MonthFromTime t1 = mo1 at *
  generalize MonthFromTime t2 = mo2 at *
  generalize DateFromTime t1 = d1 at *
  generalize DateFromTime t2 = d2 at *
  generalize HourFromTime t1 = hh1 at *
  generalize HourFromTime t2 = hh2 at *
  generalize MinFromTime t1 = mi1 at *
  generalize MinFromTime t2 = mi2 at *
  generalize SecFromTime t1 = s1 at *
  generalize SecFromTime t2 = s2 at *
  generalize msFromTime t1 = ms1 at *
  generalize msFromTime t2 = ms2 at *
  refine seg_lt 4 _ _ _ _ _ (by norm_num; omega) (by norm_num; omega) ?_
  rcases hl with hl | ⟨he, hl⟩
  · exact Or.inl (by omega)
  refine Or.inr ⟨by omega, seg_lt 2 _ _ _ _ _ (by norm_num; omega) (by norm_num; omega) ?_⟩
  rcases hl with hl | ⟨he2, hl⟩
  · exact Or.inl (by omega)
  refine Or.inr ⟨by omega, seg_lt 2 _ _ _ _ _ (by norm_num; omega) (by norm_num; omega) ?_⟩
  rcases hl with hl | ⟨he3, hl⟩
  · exact Or.inl (by omega)
  refine Or.inr ⟨by omega, seg_lt 2 _ _ _ _ _ (by norm_num; omega) (by norm_num; omega) ?_⟩
  rcases hl with hl | ⟨he4, hl⟩
  · exact Or.inl (by omega)
  refine Or.inr ⟨by omega, seg_lt 2 _ _ _ _ _ (by norm_num; omega) (by norm_num; omega) ?_⟩
  rcases hl with hl | ⟨he5, hl⟩
  · exact Or.inl (by omega)
  refine Or.inr ⟨by omega, seg_lt 2 _ _ _ _ _ (by norm_num; omega) (by norm_num; omega) ?_⟩
  rcases hl with hl | ⟨he6, hl⟩
  · exact Or.inl (by omega)
  refine Or.inr ⟨by omega, seg_lt 3 _ _ _ _ _ (by norm_num; omega) (by norm_num; omega) ?_⟩
  exact Or.inl (by omega)

/-- C9: for creation instants `t1 < t2` (milliseconds since the epoch) whose
years lie in 0000..9999, the name `livestream_<ts(t1)>.wav` is strictly below
`livestream_<ts(t2)>.wav` in lexicographic string order, and neither
timestamp part contains ':' or '.'. -/
theorem liveName_strictMono (t1 t2 : Int) (h : t1 < t2) (hy1 : 0 ≤ YearFromTime t1)
    (hy2 : YearFromTime t2 ≤ 9999) :
    liveName t1 < liveName t2 ∧
    (∀ c ∈ (ts t1).toList, c ≠ ':' ∧ c ≠ '.') ∧ (∀ c ∈ (ts t2).toList, c ≠ ':' ∧ c ≠ '.') := by
  have hsafe : ∀ t : Int, ∀ c ∈ (ts t).toList, c ≠ ':' ∧ c ≠ '.' := by
    intro t c hc
    rw [ts_toList] at hc
    unfold tsChars at hc
    rcases List.mem_map.1 hc with ⟨a, _, rfl⟩
    exact replaceUnsafe_safe a
  refine ⟨?_, hsafe t1, hsafe t2⟩
  rw [String.lt_iff_toList_lt, liveName_data, liveName_data]
  exact (List.lt_iff_lex_lt _ _).1
    (append_lt_append_left _ _ _ (tsChars_lt t1 t2 h hy1 hy2 _))

/-- Witness for C9: two streams started one millisecond apart, across the end
of 1999. -/
theorem liveName_strictMono_witness :
    (946684799999 : Int) < 946684800000 ∧ 0 ≤ YearFromTime 946684799999 ∧
    YearFromTime 946684800000 ≤ 9999 ∧ liveName 946684799999 < liveName 946684800000 :=
  ⟨by decide, by decide, by decide,
    (liveName_strictMono 946684799999 946684800000 (by decide) (by decide) (by decide)).1⟩

end MicStream
